import Mathlib

/-!
Shallow embedding of the core of the `radio_capture` repository:
the Speech Block Segmenter (`app/services/speech_blocks.py`),
the Process Supervisor (`app/services/stream_manager.py`),
the Discovery Watcher (`app/services/watcher.py`)
and the Command Builder (`app/services/ffmpeg_builder.py`).

Timestamps and durations are modelled as rationals (`Rat`), standing for
seconds; Python `datetime` subtraction with `.total_seconds()` becomes plain
subtraction.  Database tables become lists of rows threaded through the
functions; the external process/probe/parse capabilities become explicit
oracle parameters.
-/

unseal Rat.add Rat.sub Rat.mul

namespace RadioCapture

/-! ### Data model rows (app/models/models.py, fields used by the core) -/

/-- A `Recording` row as the Segmenter reads it. -/
structure Recording where
  id : Nat
  stream_id : Nat
  start_ts : Rat
  end_ts : Option Rat
  duration_seconds : Rat
  classification : Option String
  transcript : Option String
deriving DecidableEq, Repr

/-- A `SpeechBlock` row as the Segmenter writes it. -/
structure SpeechBlock where
  stream_id : Nat
  start_ts : Rat
  end_ts : Rat
  duration_seconds : Rat
  chunk_ids : List Nat
  text : String
deriving DecidableEq, Repr

/-! ### Speech Block Segmenter (app/services/speech_blocks.py) -/

/-- `_calculate_end_ts`: explicit `end_ts` if set, else `start_ts + duration`
when the duration is positive, else `start_ts`. -/
def calculate_end_ts (r : Recording) : Rat :=
  match r.end_ts with
  | some e => e
  | none => if 0 < r.duration_seconds then r.start_ts + r.duration_seconds else r.start_ts

/-- The mutable locals of `build_speech_blocks`' scan
(`current_chunk_ids`, `current_texts`, `block_start`, `block_end`)
together with the accumulated `blocks` list. -/
structure SegState where
  current_chunk_ids : List Nat
  current_texts : List String
  block_start : Option Rat
  block_end : Option Rat
  blocks : List SpeechBlock
deriving DecidableEq, Repr

/-- The inner `finalize_block` closure: a no-op unless a block is open; a
block shorter than `min_duration` is dropped; otherwise a `SpeechBlock` is
appended, joining the non-empty transcripts with newlines.  In every
non-trivial case the open-block locals are reset. -/
def finalize_block (station_id : Nat) (min_duration : Rat) (st : SegState) : SegState :=
  match st.current_chunk_ids, st.block_start, st.block_end with
  | [], _, _ => st
  | _, none, _ => st
  | _, _, none => st
  | ids, some bs, some be =>
    let duration := be - bs
    if duration < min_duration then
      { st with current_chunk_ids := [], current_texts := [], block_start := none, block_end := none }
    else
      let text_blob := String.intercalate "\n" (st.current_texts.filter (fun t => t ≠ ""))
      let block : SpeechBlock :=
        { stream_id := station_id
          start_ts := bs
          end_ts := be
          duration_seconds := duration
          chunk_ids := ids
          text := text_blob }
      { current_chunk_ids := []
        current_texts := []
        block_start := none
        block_end := none
        blocks := st.blocks ++ [block] }

/-- One iteration of the `for rec in recordings` loop of
`build_speech_blocks`.  A non-speech recording finalizes any open block and
is skipped; a speech recording opens a block, is absorbed when the gap to
the open block is within `gap_threshold`, or finalizes the open block and
opens a new one.  The `block_end = none` case with a non-empty member list
cannot arise from the loop's own state (the source would raise there). -/
def process_recording (station_id : Nat) (gap_threshold min_duration : Rat)
    (st : SegState) (r : Recording) : SegState :=
  let r_end := calculate_end_ts r
  if r.classification ≠ some "speech" then
    finalize_block station_id min_duration st
  else if st.current_chunk_ids = [] then
    { st with
      block_start := some r.start_ts
      block_end := some r_end
      current_chunk_ids := [r.id]
      current_texts := [r.transcript.getD ""] }
  else
    match st.block_end with
    | none => st
    | some be =>
      let gap := r.start_ts - be
      if gap ≤ gap_threshold then
        { st with
          current_chunk_ids := st.current_chunk_ids ++ [r.id]
          current_texts := st.current_texts ++ [r.transcript.getD ""]
          block_end := if be < r_end then some r_end else some be }
      else
        let st1 := finalize_block station_id min_duration st
        { st1 with
          block_start := some r.start_ts
          block_end := some r_end
          current_chunk_ids := [r.id]
          current_texts := [r.transcript.getD ""] }

/-- The pure scan of `build_speech_blocks`: fold the day's recordings
(ordered by start time, as the query returns them) and finalize the last
open block. -/
def build_speech_blocks (station_id : Nat) (gap_threshold min_duration : Rat)
    (recs : List Recording) : List SpeechBlock :=
  let st0 : SegState := ⟨[], [], none, none, []⟩
  (finalize_block station_id min_duration
    (recs.foldl (process_recording station_id gap_threshold min_duration) st0)).blocks

/-- The delete filter of `build_speech_blocks`: a stored block belongs to the
(station, day) being rebuilt when its `stream_id` matches and its `start_ts`
lies within the day bounds. -/
def block_in_day (station_id : Nat) (day_start day_end : Rat) (b : SpeechBlock) : Bool :=
  b.stream_id == station_id && decide (day_start ≤ b.start_ts) && decide (b.start_ts ≤ day_end)

/-- The blocks a store holds for one (station, day). -/
def day_blocks (station_id : Nat) (day_start day_end : Rat)
    (store : List SpeechBlock) : List SpeechBlock :=
  store.filter (block_in_day station_id day_start day_end)

/-- The `delete(SpeechBlock).where(...)` statement of `build_speech_blocks`. -/
def delete_day_blocks (station_id : Nat) (day_start day_end : Rat)
    (store : List SpeechBlock) : List SpeechBlock :=
  store.filter (fun b => !(block_in_day station_id day_start day_end b))

/-- Where a run of `build_speech_blocks` stops: the source issues two
separate `session.commit()` calls, one right after the delete and one after
all inserts, so a `StoreError` can strike at either commit. -/
inductive FailPoint where
  | atDeleteCommit
  | atInsertCommit
  | noFailure
deriving DecidableEq, Repr

/-- The store after one `build_speech_blocks(station_id, date, ...)` run that
fails at the given point.  A failure at the delete commit rolls the delete
back; a failure at the insert commit happens after the delete was already
committed on its own; an untroubled run commits the delete and then the
newly built blocks. -/
def rebuild_run (fail : FailPoint) (store : List SpeechBlock) (station_id : Nat)
    (day_start day_end : Rat) (recs : List Recording) (gap_threshold min_duration : Rat) :
    List SpeechBlock :=
  match fail with
  | .atDeleteCommit => store
  | .atInsertCommit => delete_day_blocks station_id day_start day_end store
  | .noFailure =>
    delete_day_blocks station_id day_start day_end store
      ++ build_speech_blocks station_id gap_threshold min_duration recs

/-! ### Process Supervisor (app/services/stream_manager.py)

The tracked `self.processes` dict becomes an association list keyed by
stream id.  A live subprocess handle is reduced to the two observables the
supervisor reads: its current `returncode`, and how the process responds to
a terminate signal (`term_exit_time` = seconds until it exits after
`terminate()`; `none` = it never exits on its own).  Launching a process is
an external effect, abstracted as a `spawn` oracle. -/

/-- The observable behavior of one `asyncio.subprocess.Process` handle. -/
structure CaptureProcess where
  returncode : Option Int
  term_exit_time : Option Rat
deriving DecidableEq, Repr

/-- What one manager-side stop of a single process amounts to. -/
inductive StopAction where
  | noAction
  | exitedAfter (t : Rat)
  | killedAfter (t : Rat)
  | hangs
deriving DecidableEq, Repr

/-- Per-process behavior of `StreamManager.stop_stream`: skip a process whose
exit code is already set; otherwise `terminate()`, `wait()` for up to 5
seconds, and `kill()` on timeout. -/
def stop_stream_action (p : CaptureProcess) : StopAction :=
  if p.returncode.isSome then .noAction
  else
    match p.term_exit_time with
    | some t => if t ≤ 5 then .exitedAfter t else .killedAfter 5
    | none => .killedAfter 5

/-- Per-process behavior of the loop inside `StreamManager.stop`: skip a
process whose exit code is already set; otherwise `terminate()` and `await
proc.wait()` with no timeout, so a process that never exits is waited on
forever.  (Exceptions from terminate/wait are logged and swallowed.) -/
def shutdown_stop_action (p : CaptureProcess) : StopAction :=
  if p.returncode.isSome then .noAction
  else
    match p.term_exit_time with
    | some t => .exitedAfter t
    | none => .hangs

/-- The in-memory state `StreamManager.stop` touches: the `running` flag and
the tracked-process table. -/
structure ManagerState where
  running : Bool
  processes : List (Nat × CaptureProcess)
deriving DecidableEq, Repr

/-- `StreamManager.stop`: clear the `running` flag, apply the unbounded
terminate-and-wait to every tracked process, then clear the table.  Returns
the final state and the per-process stop actions taken. -/
def stop_manager (st : ManagerState) : ManagerState × List (Nat × StopAction) :=
  ({ running := false, processes := [] },
   st.processes.map (fun q => (q.1, shutdown_stop_action q.2)))

/-- A `Stream` row, restricted to the fields `reconcile_streams` reads and
writes (the capture parameters consumed by the command builder are behind
the `spawn` oracle; `last_up` is set alongside `current_status` and carries
no further logic). -/
structure Stream where
  id : Nat
  enabled : Bool
  current_status : String
  last_error : Option String
deriving DecidableEq, Repr

/-- An `Event` row as the supervisor writes it. -/
structure EventRec where
  stream_id : Nat
  level : String
  message : String
deriving DecidableEq, Repr

/-- The state one `reconcile_streams` pass reads and writes: the tracked
process table, the `streams` table and the `events` table. -/
structure SupState where
  processes : List (Nat × CaptureProcess)
  streams : List Stream
  events : List EventRec
deriving DecidableEq, Repr

/-- `del self.processes[i]`. -/
def proc_erase (i : Nat) (ps : List (Nat × CaptureProcess)) : List (Nat × CaptureProcess) :=
  ps.filter (fun q => !(q.1 == i))

/-- `self.processes[i] = p`. -/
def proc_insert (i : Nat) (p : CaptureProcess) (ps : List (Nat × CaptureProcess)) :
    List (Nat × CaptureProcess) :=
  (i, p) :: proc_erase i ps

/-- Commit a per-row change for stream id `i` to the `streams` table. -/
def streams_modify (i : Nat) (f : Stream → Stream) (streams : List Stream) : List Stream :=
  streams.map (fun t => if t.id == i then f t else t)

/-- Commit an updated row for stream id `i` back to the `streams` table. -/
def streams_update (i : Nat) (row : Stream) (streams : List Stream) : List Stream :=
  streams_modify i (fun _ => row) streams

/-- `session.get(Stream, i)`. -/
def find_stream (i : Nat) (streams : List Stream) : Option Stream :=
  streams.find? (fun t => t.id == i)

/-- `StreamManager.start_stream`: launch via the `spawn` oracle (which stands
for building the ffmpeg command and `create_subprocess_exec`).  On success
the process is tracked, the row is set to `running` with `last_error`
cleared, and an info event is written.  On any exception the row is set to
`error` with the message, and nothing is tracked. -/
def start_stream (spawn : Nat → Except String CaptureProcess) (st : SupState) (s : Stream) :
    SupState :=
  match spawn s.id with
  | .ok p =>
    { processes := proc_insert s.id p st.processes
      streams := streams_update s.id
        { s with current_status := "running", last_error := none } st.streams
      events := st.events ++ [⟨s.id, "info", "Stream started"⟩] }
  | .error msg =>
    { st with
      streams := streams_update s.id
        { s with current_status := "error", last_error := some msg } st.streams }

/-- `StreamManager.handle_failure`: drop the tracked handle, set the row to
`error` with the fixed message, and write an error event.  No respawn
happens here. -/
def handle_failure (st : SupState) (s : Stream) : SupState :=
  { processes := proc_erase s.id st.processes
    streams := streams_update s.id
      { s with current_status := "error", last_error := some "Process exited unexpectedly" }
      st.streams
    events := st.events ++ [⟨s.id, "error", "Stream process died"⟩] }

/-- The tracking/DB effect of `StreamManager.stop_stream` as called from a
reconcile pass: untrack the process and set the row (fetched by id) to
`stopped`.  The process-side effect is `stop_stream_action`. -/
def stop_stream_pass (st : SupState) (i : Nat) : SupState :=
  { st with
    processes := proc_erase i st.processes
    streams := streams_modify i (fun t => { t with current_status := "stopped" }) st.streams }

/-- The body of the `for stream in streams` loop of
`StreamManager.reconcile_streams`. -/
def reconcile_step (spawn : Nat → Except String CaptureProcess) (st : SupState) (s : Stream) :
    SupState :=
  if s.enabled then
    match List.lookup s.id st.processes with
    | none => start_stream spawn st s
    | some p => if p.returncode.isSome then handle_failure st s else st
  else
    match List.lookup s.id st.processes with
    | some _ => stop_stream_pass st s.id
    | none => st

/-- One `reconcile_streams` pass: fold the loop body over the snapshot of the
`streams` table taken at the start of the pass.  (The source also builds an
`active_stream_ids` set during the loop, but never reads it.) -/
def reconcile_streams (spawn : Nat → Except String CaptureProcess) (st : SupState) : SupState :=
  st.streams.foldl (reconcile_step spawn) st

/-! ### Discovery Watcher (app/services/watcher.py)

One file met by the `os.walk` of `RecordingWatcher.scan_files` is reduced to
its basename, directory, mtime and size.  `ffprobe` (`get_duration`,
already mapped to `0.0` on failure inside the source helper) and the
`chunk_<YYYYMMDDHHMMSS>` filename parse (which raises on a malformed name,
caught by the per-file handler) are oracles.  The source reads
`datetime.now()` afresh per file; one scan is modelled with a single
`now`. -/

/-- Python `str.endswith`, on the character sequence of the string. -/
def str_ends_with (s suffix : String) : Bool :=
  List.isSuffixOf suffix.data s.data

/-- One candidate file of a scan. -/
structure FileEntry where
  name : String
  dir : String
  mtime : Rat
  size : Nat
deriving DecidableEq, Repr

/-- `os.path.join(root, file)`. -/
def full_path (f : FileEntry) : String := f.dir ++ "/" ++ f.name

/-- A `Recording` row as the watcher inserts it. -/
structure WatchRecording where
  stream_id : Nat
  path : String
  start_ts : Rat
  size_bytes : Nat
  duration_seconds : Rat
  status : String
deriving DecidableEq, Repr

/-- The per-file body of `RecordingWatcher.scan_files`: skip non-`.wav`,
non-`.mp3` names; skip a path already present in the table; skip a file
modified less than 10 seconds ago; skip (via the exception handler) a name
the timestamp parse rejects; otherwise insert a `completed` row with the
probed duration. -/
def scan_file (now : Rat) (get_duration : String → Rat) (parse_ts : String → Option Rat)
    (stream_id : Nat) (db : List WatchRecording) (f : FileEntry) : List WatchRecording :=
  if !(str_ends_with f.name ".wav" || str_ends_with f.name ".mp3") then db
  else
    let path := full_path f
    if db.any (fun row => row.path == path) then db
    else if now - f.mtime < 10 then db
    else
      match parse_ts f.name with
      | none => db
      | some ts =>
        db ++ [⟨stream_id, path, ts, f.size, get_duration path, "completed"⟩]

/-- The walk of one enabled stream's output tree within one scan: the
per-file body folded over the files met, threading the `Recording` table
(each insert is committed before the next file is examined). -/
def scan_files (now : Rat) (get_duration : String → Rat) (parse_ts : String → Option Rat)
    (stream_id : Nat) (db : List WatchRecording) (files : List FileEntry) :
    List WatchRecording :=
  files.foldl (scan_file now get_duration parse_ts stream_id) db

/-- The registered paths of the `Recording` table (the column the watcher's
duplicate check queries). -/
def db_paths (db : List WatchRecording) : List String := db.map (fun r => r.path)

/-! ### Command Builder (app/services/ffmpeg_builder.py) -/

/-- The slice of a stream's configuration `FfmpegBuilder` reads.  `flags`
holds the `shlex.split` of the extra-flags string; the empty list stands for
an absent or empty (hence falsy) flags value, which the source skips. -/
structure BuilderConfig where
  url : String
  name : String
  format : Option String
  segment_time : Option Nat
  channels : Option Nat
  sample_rate : Option Nat
  codec : Option String
  bitrate : Option String
  flags : List String
deriving DecidableEq, Repr

/-- `fmt = self.mandatory.get("format", "wav")`. -/
def resolved_format (c : BuilderConfig) : String := c.format.getD "wav"

/-- `default_codec = "pcm_s16le" if fmt == "wav" else "copy"`. -/
def default_codec (fmt : String) : String := if fmt = "wav" then "pcm_s16le" else "copy"

/-- `codec = self.optional.get("codec", default_codec)`. -/
def resolved_codec (c : BuilderConfig) : String :=
  c.codec.getD (default_codec (resolved_format c))

/-- The bitrate arguments, emitted only when a non-empty bitrate is
configured. -/
def bitrate_args (c : BuilderConfig) : List String :=
  match c.bitrate with
  | some b => if b = "" then [] else ["-b:a", b]
  | none => []

/-- The channel-count and sample-rate arguments, emitted only when the
resolved codec is not `copy`. -/
def transcode_args (c : BuilderConfig) : List String :=
  if resolved_codec c = "copy" then []
  else ["-ac", toString (c.channels.getD 1), "-ar", toString (c.sample_rate.getD 16000)]

/-- The strftime output template
`/data/recordings/<name>/%Y/%m/%d/chunk_%Y%m%d%H%M%S.<fmt>`. -/
def output_pattern (c : BuilderConfig) : String :=
  "/data/recordings/" ++ c.name ++ "/%Y/%m/%d/chunk_%Y%m%d%H%M%S." ++ resolved_format c

/-- `FfmpegBuilder.build_command`: `ValueError` when url or name is falsy,
else the argument list in source order. -/
def build_command (c : BuilderConfig) : Except String (List String) :=
  if c.url = "" ∨ c.name = "" then .error "Stream URL and Name are required"
  else
    .ok (["ffmpeg", "-nostdin", "-y", "-loglevel", "info", "-i", c.url, "-map", "0:a",
        "-segment_format", resolved_format c, "-c:a", resolved_codec c]
      ++ bitrate_args c
      ++ transcode_args c
      ++ ["-f", "segment", "-segment_time", toString (c.segment_time.getD 3600),
          "-strftime", "1", "-reset_timestamps", "1"]
      ++ c.flags
      ++ [output_pattern c])

/-! ## Lemmas about the Segmenter scan -/

/-- Every block of a finalized state was already accumulated, or is the one
block the finalize emitted, in which case its fields are fixed by the open
block and its duration clears the minimum. -/
theorem mem_blocks_finalize {sid : Nat} {md : Rat} {st : SegState} {b : SpeechBlock}
    (hb : b ∈ (finalize_block sid md st).blocks) :
    b ∈ st.blocks ∨
      ∃ bs be, st.block_start = some bs ∧ st.block_end = some be ∧
        b.stream_id = sid ∧ b.start_ts = bs ∧ b.end_ts = be ∧
        b.duration_seconds = be - bs ∧ md ≤ be - bs := by
  rcases hids : st.current_chunk_ids with _ | ⟨i, ids⟩
  · exact Or.inl (by simpa [finalize_block, hids] using hb)
  rcases hbs : st.block_start with _ | bs
  · exact Or.inl (by simpa [finalize_block, hids, hbs] using hb)
  rcases hbe : st.block_end with _ | be
  · exact Or.inl (by simpa [finalize_block, hids, hbs, hbe] using hb)
  by_cases hd : be - bs < md
  · exact Or.inl (by simpa [finalize_block, hids, hbs, hbe, hd] using hb)
  · have hb2 : b ∈ st.blocks ∨ b = ⟨sid, bs, be, be - bs, i :: ids,
        String.intercalate "\n" (st.current_texts.filter (fun t => t ≠ ""))⟩ := by
      simpa [finalize_block, hids, hbs, hbe, hd] using hb
    rcases hb2 with h | h
    · exact Or.inl h
    · exact Or.inr ⟨bs, be, by simp [hbs], by simp [hbe], by simp [h], by simp [h], by simp [h],
        by simp [h], not_lt.mp hd⟩

/-- A finalize never opens a block: its `block_start` is the old one or
`none`. -/
theorem finalize_block_start {sid : Nat} {md : Rat} {st : SegState} :
    (finalize_block sid md st).block_start = st.block_start ∨
    (finalize_block sid md st).block_start = none := by
  rcases hids : st.current_chunk_ids with _ | ⟨i, ids⟩
  · exact Or.inl (by simp [finalize_block, hids])
  rcases hbs : st.block_start with _ | bs
  · exact Or.inl (by simp [finalize_block, hids, hbs])
  rcases hbe : st.block_end with _ | be
  · exact Or.inl (by simp [finalize_block, hids, hbs, hbe])
  by_cases hd : be - bs < md
  · exact Or.inr (by simp [finalize_block, hids, hbs, hbe, hd])
  · exact Or.inr (by simp [finalize_block, hids, hbs, hbe, hd])

/-- One loop iteration leaves the accumulated blocks unchanged or equal to
those of a finalize of the incoming state. -/
theorem process_recording_blocks {sid : Nat} {gap md : Rat} {st : SegState} {r : Recording} :
    (process_recording sid gap md st r).blocks = st.blocks ∨
    (process_recording sid gap md st r).blocks = (finalize_block sid md st).blocks := by
  by_cases h1 : r.classification ≠ some "speech"
  · exact Or.inr (by simp [process_recording, h1])
  by_cases h2 : st.current_chunk_ids = []
  · exact Or.inl (by simp [process_recording, h1, h2])
  rcases hbe : st.block_end with _ | be
  · exact Or.inl (by simp [process_recording, h1, h2, hbe])
  by_cases h3 : r.start_ts - be ≤ gap
  · exact Or.inl (by simp [process_recording, h1, h2, hbe, h3])
  · exact Or.inr (by simp [process_recording, h1, h2, hbe, h3])

/-- One loop iteration either keeps the open block's start, resets it, or
opens a block at the incoming recording's start. -/
theorem process_recording_block_start {sid : Nat} {gap md : Rat} {st : SegState}
    {r : Recording} :
    (process_recording sid gap md st r).block_start = st.block_start ∨
    (process_recording sid gap md st r).block_start = none ∨
    (process_recording sid gap md st r).block_start = some r.start_ts := by
  by_cases h1 : r.classification ≠ some "speech"
  · rcases @finalize_block_start sid md st with h | h
    · exact Or.inl (by simpa [process_recording, h1] using h)
    · exact Or.inr (Or.inl (by simpa [process_recording, h1] using h))
  by_cases h2 : st.current_chunk_ids = []
  · exact Or.inr (Or.inr (by simp [process_recording, h1, h2]))
  rcases hbe : st.block_end with _ | be
  · exact Or.inl (by simp [process_recording, h1, h2, hbe])
  by_cases h3 : r.start_ts - be ≤ gap
  · exact Or.inl (by simp [process_recording, h1, h2, hbe, h3])
  · exact Or.inr (Or.inr (by simp [process_recording, h1, h2, hbe, h3]))

/-- Scan invariant used for C1/C9: every accumulated block carries the
station id being rebuilt, and block starts only come from recording starts
satisfying `S`. -/
theorem seg_fold_inv (sid : Nat) (gap md : Rat) (S : Rat → Prop) :
    ∀ (l : List Recording) (st : SegState),
      (∀ b ∈ st.blocks, b.stream_id = sid ∧ S b.start_ts) →
      (∀ t, st.block_start = some t → S t) →
      (∀ r ∈ l, S r.start_ts) →
      (∀ b ∈ (l.foldl (process_recording sid gap md) st).blocks,
        b.stream_id = sid ∧ S b.start_ts) ∧
      (∀ t, (l.foldl (process_recording sid gap md) st).block_start = some t → S t) := by
  intro l
  induction l with
  | nil => intro st h1 h2 _; exact ⟨h1, h2⟩
  | cons r l ih =>
    intro st h1 h2 hl
    have hfin1 : ∀ b ∈ (finalize_block sid md st).blocks, b.stream_id = sid ∧ S b.start_ts := by
      intro b hb
      rcases mem_blocks_finalize hb with h | ⟨bs, be, hbs, _, hsid, hstart, _, _, _⟩
      · exact h1 b h
      · exact ⟨hsid, hstart ▸ h2 bs hbs⟩
    have hstep1 : ∀ b ∈ (process_recording sid gap md st r).blocks,
        b.stream_id = sid ∧ S b.start_ts := by
      intro b hb
      rcases @process_recording_blocks sid gap md st r with h | h
      · exact h1 b (h ▸ hb)
      · exact hfin1 b (h ▸ hb)
    have hstep2 : ∀ t, (process_recording sid gap md st r).block_start = some t → S t := by
      intro t ht
      rcases @process_recording_block_start sid gap md st r with h | h | h
      · exact h2 t (h ▸ ht)
      · simp [h] at ht
      · rw [h] at ht
        exact (Option.some.inj ht) ▸ hl r (by simp)
    have := ih (process_recording sid gap md st r) hstep1 hstep2
      (fun x hx => hl x (by simp [hx]))
    simpa using this

/-- Every block returned by the scan is for the station being rebuilt and
starts at the start of one of the input recordings. -/
theorem mem_build_speech_blocks {sid : Nat} {gap md : Rat} {recs : List Recording}
    {b : SpeechBlock} (hb : b ∈ build_speech_blocks sid gap md recs) :
    b.stream_id = sid ∧ ∃ r ∈ recs, b.start_ts = r.start_ts := by
  have hinv := seg_fold_inv sid gap md (fun t => ∃ r ∈ recs, t = r.start_ts) recs
    ⟨[], [], none, none, []⟩ (by simp) (by simp) (fun r hr => ⟨r, hr, rfl⟩)
  have hfin : b ∈ (finalize_block sid md
      (recs.foldl (process_recording sid gap md) ⟨[], [], none, none, []⟩)).blocks := hb
  rcases mem_blocks_finalize hfin with h | ⟨bs, be, hbs, _, hsid, hstart, _, _, _⟩
  · rcases hinv.1 b h with ⟨hsid, r, hr, heq⟩
    exact ⟨hsid, r, hr, heq⟩
  · rcases hinv.2 bs hbs with ⟨r, hr, heq⟩
    exact ⟨hsid, r, hr, hstart ▸ heq⟩

/-- Scan invariant used for C8: every accumulated block's stored duration is
its span and clears the minimum. -/
theorem seg_fold_duration (sid : Nat) (gap md : Rat) :
    ∀ (l : List Recording) (st : SegState),
      (∀ b ∈ st.blocks, b.duration_seconds = b.end_ts - b.start_ts ∧ md ≤ b.duration_seconds) →
      ∀ b ∈ (l.foldl (process_recording sid gap md) st).blocks,
        b.duration_seconds = b.end_ts - b.start_ts ∧ md ≤ b.duration_seconds := by
  intro l
  induction l with
  | nil => intro st h; exact h
  | cons r l ih =>
    intro st h1
    apply ih
    intro b hb
    have hfin : ∀ b ∈ (finalize_block sid md st).blocks,
        b.duration_seconds = b.end_ts - b.start_ts ∧ md ≤ b.duration_seconds := by
      intro b hb
      rcases mem_blocks_finalize hb with h | ⟨bs, be, _, _, _, hstart, hend, hdur, hmin⟩
      · exact h1 b h
      · constructor
        · rw [hdur, hstart, hend]
        · rw [hdur]; exact hmin
    rcases @process_recording_blocks sid gap md st r with h | h
    · exact h1 b (h ▸ hb)
    · exact hfin b (h ▸ hb)

/-! ## Lemmas about the day filters -/

/-- The day filter finds nothing after the day's blocks were deleted. -/
theorem day_blocks_delete_day_blocks (sid : Nat) (ds de : Rat) (store : List SpeechBlock) :
    day_blocks sid ds de (delete_day_blocks sid ds de store) = [] := by
  simp only [day_blocks, delete_day_blocks, List.filter_filter]
  simp

/-- Deleting the day's blocks twice equals deleting them once. -/
theorem delete_day_blocks_idem (sid : Nat) (ds de : Rat) (store : List SpeechBlock) :
    delete_day_blocks sid ds de (delete_day_blocks sid ds de store)
      = delete_day_blocks sid ds de store := by
  simp only [delete_day_blocks, List.filter_filter]
  simp

/-- When every source recording starts within the day bounds, every block the
scan returns matches the day filter. -/
theorem build_block_in_day {sid : Nat} {ds de gap md : Rat} {recs : List Recording}
    (hbounds : ∀ r ∈ recs, ds ≤ r.start_ts ∧ r.start_ts ≤ de) :
    ∀ b ∈ build_speech_blocks sid gap md recs, block_in_day sid ds de b = true := by
  intro b hb
  rcases mem_build_speech_blocks hb with ⟨hsid, r, hr, heq⟩
  simp only [block_in_day, hsid, heq, beq_self_eq_true, Bool.true_and, Bool.and_eq_true,
    decide_eq_true_eq]
  exact hbounds r hr

/-- The day filter keeps every block the scan returns (day bounds as above). -/
theorem day_blocks_build {sid : Nat} {ds de gap md : Rat} {recs : List Recording}
    (hbounds : ∀ r ∈ recs, ds ≤ r.start_ts ∧ r.start_ts ≤ de) :
    day_blocks sid ds de (build_speech_blocks sid gap md recs)
      = build_speech_blocks sid gap md recs := by
  rw [day_blocks, List.filter_eq_self]
  exact build_block_in_day hbounds

/-- The delete filter removes every block the scan returns (day bounds as
above). -/
theorem delete_day_blocks_build {sid : Nat} {ds de gap md : Rat} {recs : List Recording}
    (hbounds : ∀ r ∈ recs, ds ≤ r.start_ts ∧ r.start_ts ≤ de) :
    delete_day_blocks sid ds de (build_speech_blocks sid gap md recs) = [] := by
  rw [delete_day_blocks, List.filter_eq_nil_iff]
  intro b hb
  simp [build_block_in_day hbounds b hb]

/-! ## Claims C7, C8, C9, C1 -/

/-- C7: for two speech recordings at t=0 (30 s) and t=35 (30 s) with
gapThreshold=5 and minDuration=20, the rebuild produces exactly one block
spanning t=0..65 whose member ids are both recording ids in encounter order
and whose text is both transcripts joined in order. -/
theorem claim7_scenario_A :
    build_speech_blocks 1 5 20
      [⟨1, 1, 0, none, 30, some "speech", some "hello world"⟩,
       ⟨2, 1, 35, none, 30, some "speech", some "second chunk"⟩]
      = [⟨1, 0, 65, 65, [1, 2], "hello world\nsecond chunk"⟩] := by decide

/-- C8: every block the Segmenter returns stores duration = end − start and
that duration is at least the configured minimum; shorter candidates are
discarded and never appear. -/
theorem claim8_duration_minimum (sid : Nat) (gap md : Rat) (recs : List Recording)
    (b : SpeechBlock) (hb : b ∈ build_speech_blocks sid gap md recs) :
    b.duration_seconds = b.end_ts - b.start_ts ∧ md ≤ b.duration_seconds := by
  have hfold := seg_fold_duration sid gap md recs ⟨[], [], none, none, []⟩ (by simp)
  have hb2 : b ∈ (finalize_block sid md
      (recs.foldl (process_recording sid gap md) ⟨[], [], none, none, []⟩)).blocks := hb
  rcases mem_blocks_finalize hb2 with h | ⟨bs, be, _, _, _, hstart, hend, hdur, hmin⟩
  · exact hfold b h
  · exact ⟨by rw [hdur, hstart, hend], by rw [hdur]; exact hmin⟩

/-- C8 witness: the single block of scenario A satisfies the duration
invariant with minimum 20. -/
theorem claim8_duration_minimum_witness :
    (⟨1, 0, 65, 65, [1, 2], "hello world\nsecond chunk"⟩ : SpeechBlock) ∈
      build_speech_blocks 1 5 20
        [⟨1, 1, 0, none, 30, some "speech", some "hello world"⟩,
         ⟨2, 1, 35, none, 30, some "speech", some "second chunk"⟩] ∧
    (65 : Rat) = 65 - 0 ∧ (20 : Rat) ≤ 65 :=
  ⟨by decide,
   claim8_duration_minimum 1 5 20
     [⟨1, 1, 0, none, 30, some "speech", some "hello world"⟩,
      ⟨2, 1, 35, none, 30, some "speech", some "second chunk"⟩]
     ⟨1, 0, 65, 65, [1, 2], "hello world\nsecond chunk"⟩ (by decide)⟩

/-- C9: a second rebuild for the same (station, date) with unchanged source
recordings returns the same block list and leaves the same store: the first
rebuild's delete-then-insert is reproduced exactly, never duplicated. -/
theorem claim9_rebuild_idempotent (store : List SpeechBlock) (sid : Nat) (ds de : Rat)
    (recs : List Recording) (gap md : Rat)
    (hbounds : ∀ r ∈ recs, ds ≤ r.start_ts ∧ r.start_ts ≤ de) :
    rebuild_run .noFailure (rebuild_run .noFailure store sid ds de recs gap md)
        sid ds de recs gap md
      = rebuild_run .noFailure store sid ds de recs gap md := by
  simp only [rebuild_run, delete_day_blocks, List.filter_append]
  rw [← delete_day_blocks, ← delete_day_blocks, ← delete_day_blocks,
    delete_day_blocks_idem, delete_day_blocks_build hbounds, List.append_nil]

/-- C9 witness: rebuilding twice over a one-recording day starting from a
store holding a stale block is idempotent. -/
theorem claim9_rebuild_idempotent_witness :
    (∀ r ∈ [(⟨5, 1, 0, none, 70, some "speech", some "new"⟩ : Recording)],
      (0 : Rat) ≤ r.start_ts ∧ r.start_ts ≤ 86399) ∧
    rebuild_run .noFailure
        (rebuild_run .noFailure [(⟨1, 10, 100, 90, [9], "old"⟩ : SpeechBlock)]
          1 0 86399 [⟨5, 1, 0, none, 70, some "speech", some "new"⟩] 5 60)
        1 0 86399 [⟨5, 1, 0, none, 70, some "speech", some "new"⟩] 5 60
      = rebuild_run .noFailure [(⟨1, 10, 100, 90, [9], "old"⟩ : SpeechBlock)]
          1 0 86399 [⟨5, 1, 0, none, 70, some "speech", some "new"⟩] 5 60 :=
  ⟨by decide,
   claim9_rebuild_idempotent [⟨1, 10, 100, 90, [9], "old"⟩] 1 0 86399
     [⟨5, 1, 0, none, 70, some "speech", some "new"⟩] 5 60 (by decide)⟩

/-- C1 counterexample: the delete is committed on its own before the insert
commit, so a failure at the insert commit leaves the store with neither the
complete old block set nor the complete new one — here, with no blocks at
all for the day although both sets are non-empty. -/
theorem claim1_atomicity_counterexample :
    ¬ (day_blocks 1 0 86399
          (rebuild_run .atInsertCommit [(⟨1, 10, 100, 90, [9], "old"⟩ : SpeechBlock)]
            1 0 86399 [⟨5, 1, 0, none, 70, some "speech", some "new"⟩] 5 60)
        = day_blocks 1 0 86399 [(⟨1, 10, 100, 90, [9], "old"⟩ : SpeechBlock)] ∨
       day_blocks 1 0 86399
          (rebuild_run .atInsertCommit [(⟨1, 10, 100, 90, [9], "old"⟩ : SpeechBlock)]
            1 0 86399 [⟨5, 1, 0, none, 70, some "speech", some "new"⟩] 5 60)
        = build_speech_blocks 1 5 60 [⟨5, 1, 0, none, 70, some "speech", some "new"⟩]) := by
  decide

/-- C1 as amended: the rebuild is not one atomic unit but two committed
steps.  A failure at the delete commit leaves the complete old store; a
failure between the delete commit and the insert commit leaves zero blocks
for the (station, date) — the old set fully removed and the new set absent —
and a completed run leaves exactly the newly computed set; in every case
blocks of other stations or days are untouched, and old and new blocks are
never mixed. -/
theorem claim1_rebuild_failure_states (fail : FailPoint) (store : List SpeechBlock)
    (sid : Nat) (ds de : Rat) (recs : List Recording) (gap md : Rat)
    (hbounds : ∀ r ∈ recs, ds ≤ r.start_ts ∧ r.start_ts ≤ de) :
    (fail = .atDeleteCommit → rebuild_run fail store sid ds de recs gap md = store) ∧
    (fail = .atInsertCommit →
      day_blocks sid ds de (rebuild_run fail store sid ds de recs gap md) = [] ∧
      rebuild_run fail store sid ds de recs gap md = delete_day_blocks sid ds de store) ∧
    (fail = .noFailure →
      day_blocks sid ds de (rebuild_run fail store sid ds de recs gap md)
        = build_speech_blocks sid gap md recs ∧
      delete_day_blocks sid ds de (rebuild_run fail store sid ds de recs gap md)
        = delete_day_blocks sid ds de store) := by
  refine ⟨fun h => by simp [h, rebuild_run], fun h => ⟨?_, by simp [h, rebuild_run]⟩,
    fun h => ⟨?_, ?_⟩⟩
  · rw [h]
    exact day_blocks_delete_day_blocks sid ds de store
  · rw [h]
    simp only [rebuild_run, day_blocks, List.filter_append]
    rw [← day_blocks, ← day_blocks, day_blocks_delete_day_blocks,
      day_blocks_build hbounds, List.nil_append]
  · rw [h]
    simp only [rebuild_run, delete_day_blocks, List.filter_append]
    rw [← delete_day_blocks, ← delete_day_blocks, ← delete_day_blocks, delete_day_blocks_idem,
      delete_day_blocks_build hbounds, List.append_nil]

/-- C1 witness: the amended failure-state characterization at the
counterexample's store and inputs, for a failure at the insert commit. -/
theorem claim1_rebuild_failure_states_witness :
    (∀ r ∈ [(⟨5, 1, 0, none, 70, some "speech", some "new"⟩ : Recording)],
      (0 : Rat) ≤ r.start_ts ∧ r.start_ts ≤ 86399) ∧
    (FailPoint.atInsertCommit = .atInsertCommit →
      day_blocks 1 0 86399
          (rebuild_run .atInsertCommit [(⟨1, 10, 100, 90, [9], "old"⟩ : SpeechBlock)]
            1 0 86399 [⟨5, 1, 0, none, 70, some "speech", some "new"⟩] 5 60) = [] ∧
      rebuild_run .atInsertCommit [(⟨1, 10, 100, 90, [9], "old"⟩ : SpeechBlock)]
          1 0 86399 [⟨5, 1, 0, none, 70, some "speech", some "new"⟩] 5 60
        = delete_day_blocks 1 0 86399 [(⟨1, 10, 100, 90, [9], "old"⟩ : SpeechBlock)]) :=
  ⟨by decide,
   (claim1_rebuild_failure_states .atInsertCommit [⟨1, 10, 100, 90, [9], "old"⟩] 1 0 86399
     [⟨5, 1, 0, none, 70, some "speech", some "new"⟩] 5 60 (by decide)).2.1⟩

/-! ## Lemmas about the Supervisor's tracked-process table and stream table -/

theorem lookup_proc_erase_self (i : Nat) (ps : List (Nat × CaptureProcess)) :
    List.lookup i (proc_erase i ps) = none := by
  induction ps with
  | nil => rfl
  | cons q ps ih =>
    rcases hq : (q.1 == i) with _ | _
    · have hne : (i == q.1) = false := by
        simp only [beq_eq_false_iff_ne] at hq ⊢
        exact fun h => hq h.symm
      simpa [proc_erase, List.lookup, hq, hne] using ih
    · simpa [proc_erase, hq] using ih

theorem lookup_proc_erase_ne {j i : Nat} (h : j ≠ i) (ps : List (Nat × CaptureProcess)) :
    List.lookup j (proc_erase i ps) = List.lookup j ps := by
  induction ps with
  | nil => rfl
  | cons q ps ih =>
    rcases hq : (q.1 == i) with _ | _
    · rcases hj : (j == q.1) with _ | _
      · simpa [proc_erase, List.lookup, hq, hj] using ih
      · simp [proc_erase, List.lookup, hq, hj]
    · have hj : (j == q.1) = false := by
        simp only [beq_iff_eq] at hq
        simp only [beq_eq_false_iff_ne]
        exact fun he => h (he.trans hq)
      simpa [proc_erase, List.lookup, hq, hj] using ih

theorem lookup_proc_insert_self (i : Nat) (p : CaptureProcess)
    (ps : List (Nat × CaptureProcess)) :
    List.lookup i (proc_insert i p ps) = some p := by
  simp [proc_insert, List.lookup]

theorem lookup_proc_insert_ne {j i : Nat} (h : j ≠ i) (p : CaptureProcess)
    (ps : List (Nat × CaptureProcess)) :
    List.lookup j (proc_insert i p ps) = List.lookup j ps := by
  have hj : (j == i) = false := by simpa [beq_eq_false_iff_ne] using h
  simp [proc_insert, List.lookup, hj, lookup_proc_erase_ne h]

theorem find_stream_modify_ne {j i : Nat} {f : Stream → Stream}
    (hf : ∀ u : Stream, u.id = i → (f u).id = i) (h : j ≠ i) (l : List Stream) :
    find_stream j (streams_modify i f l) = find_stream j l := by
  induction l with
  | nil => rfl
  | cons t l ih =>
    rcases ht : (t.id == i) with _ | _
    · rcases htj : (t.id == j) with _ | _
      · simpa [find_stream, streams_modify, List.find?, ht, htj] using ih
      · simp [find_stream, streams_modify, List.find?, ht, htj]
    · have hid : (f t).id = i := hf t (by simpa [beq_iff_eq] using ht)
      have h1 : ((f t).id == j) = false := by
        simp only [beq_eq_false_iff_ne, hid]
        exact fun he => h he.symm
      have h2 : (t.id == j) = false := by
        simp only [beq_iff_eq] at ht
        simp only [beq_eq_false_iff_ne, ht]
        exact fun he => h he.symm
      simpa [find_stream, streams_modify, List.find?, ht, h1, h2] using ih

theorem find_stream_modify_self {i : Nat} {f : Stream → Stream}
    (hf : ∀ u : Stream, u.id = i → (f u).id = i) (l : List Stream) :
    find_stream i (streams_modify i f l) = Option.map f (find_stream i l) := by
  induction l with
  | nil => rfl
  | cons t l ih =>
    rcases ht : (t.id == i) with _ | _
    · simpa [find_stream, streams_modify, List.find?, ht] using ih
    · have hid : (f t).id = i := hf t (by simpa [beq_iff_eq] using ht)
      simp [find_stream, streams_modify, List.find?, ht, hid]

theorem streams_modify_map_id {i : Nat} {f : Stream → Stream}
    (hf : ∀ u : Stream, u.id = i → (f u).id = i) (l : List Stream) :
    (streams_modify i f l).map Stream.id = l.map Stream.id := by
  unfold streams_modify
  rw [List.map_map]
  apply List.map_congr_left
  intro a _
  by_cases ha : a.id = i
  · simp [Function.comp, ha, (hf a ha).trans ha.symm]
  · simp [Function.comp, ha]

theorem find_stream_eq_of_mem {l : List Stream} {s : Stream}
    (hnd : (l.map Stream.id).Nodup) (hs : s ∈ l) : find_stream s.id l = some s := by
  induction l with
  | nil => cases hs
  | cons t l ih =>
    rcases List.mem_cons.mp hs with h | h
    · subst h
      simp [find_stream, List.find?]
    · have hnd2 : t.id ∉ l.map Stream.id ∧ (l.map Stream.id).Nodup := by
        rw [List.map_cons] at hnd
        exact List.nodup_cons.mp hnd
      have hne : (t.id == s.id) = false := by
        simp only [beq_eq_false_iff_ne]
        intro he
        exact hnd2.1 (he ▸ List.mem_map_of_mem Stream.id h)
      simpa [find_stream, List.find?, hne] using ih hnd2.2 h

/-- A reconcile-loop iteration for stream `t` leaves every other station's
tracked entry and stream row unchanged, and only appends events. -/
theorem reconcile_step_frame (spawn : Nat → Except String CaptureProcess) (st : SupState)
    (t : Stream) {i : Nat} (h : t.id ≠ i) :
    List.lookup i (reconcile_step spawn st t).processes = List.lookup i st.processes ∧
    find_stream i (reconcile_step spawn st t).streams = find_stream i st.streams ∧
    (∀ e ∈ st.events, e ∈ (reconcile_step spawn st t).events) := by
  have hi : i ≠ t.id := fun he => h he.symm
  have hfr : ∀ (g : Stream → Stream), (∀ u : Stream, u.id = t.id → (g u).id = t.id) →
      find_stream i (streams_modify t.id g st.streams) = find_stream i st.streams :=
    fun g hg => find_stream_modify_ne hg hi st.streams
  rcases hen : t.enabled with _ | _
  · rcases hl : List.lookup t.id st.processes with _ | p
    · simp only [reconcile_step, hen, hl]
      exact ⟨rfl, rfl, fun e he => he⟩
    · simp only [reconcile_step, hen, hl, stop_stream_pass]
      exact ⟨lookup_proc_erase_ne hi st.processes, hfr _ (fun u hu => hu), fun e he => he⟩
  · rcases hl : List.lookup t.id st.processes with _ | p
    · rcases hsp : spawn t.id with msg | p2
      · simp only [reconcile_step, hen, hl, start_stream, hsp, streams_update]
        exact ⟨rfl, hfr _ (fun u _ => rfl), fun e he => he⟩
      · simp only [reconcile_step, hen, hl, start_stream, hsp, streams_update]
        exact ⟨lookup_proc_insert_ne hi p2 st.processes, hfr _ (fun u _ => rfl),
          fun e he => List.mem_append_left _ he⟩
    · rcases hrc : p.returncode.isSome with _ | _
      · simp only [reconcile_step, hen, hl, hrc]
        exact ⟨rfl, rfl, fun e he => he⟩
      · simp only [reconcile_step, hen, hl, hrc, handle_failure, streams_update]
        exact ⟨lookup_proc_erase_ne hi st.processes, hfr _ (fun u _ => rfl),
          fun e he => List.mem_append_left _ he⟩

/-- Folding reconcile-loop iterations over streams other than station `i`
keeps station `i`'s tracked entry and row, and only appends events. -/
theorem reconcile_fold_frame (spawn : Nat → Except String CaptureProcess) {i : Nat} :
    ∀ (l : List Stream) (st : SupState), (∀ t ∈ l, t.id ≠ i) →
      List.lookup i (List.foldl (reconcile_step spawn) st l).processes
        = List.lookup i st.processes ∧
      find_stream i (List.foldl (reconcile_step spawn) st l).streams
        = find_stream i st.streams ∧
      (∀ e ∈ st.events, e ∈ (List.foldl (reconcile_step spawn) st l).events) := by
  intro l
  induction l with
  | nil => exact fun st _ => ⟨rfl, rfl, fun e he => he⟩
  | cons t l ih =>
    intro st hl
    have hstep := reconcile_step_frame spawn st t (hl t (by simp))
    have hrest := ih (reconcile_step spawn st t) (fun u hu => hl u (by simp [hu]))
    exact ⟨by simp only [List.foldl_cons]; rw [hrest.1, hstep.1],
      by simp only [List.foldl_cons]; rw [hrest.2.1, hstep.2.1],
      fun e he => by
        simp only [List.foldl_cons]
        exact hrest.2.2 e (hstep.2.2 e he)⟩

/-- A reconcile-loop iteration never changes the set (or order) of stream
ids in the table. -/
theorem reconcile_step_map_id (spawn : Nat → Except String CaptureProcess) (st : SupState)
    (t : Stream) :
    ((reconcile_step spawn st t).streams).map Stream.id = st.streams.map Stream.id := by
  have hmm : ∀ (g : Stream → Stream), (∀ u : Stream, u.id = t.id → (g u).id = t.id) →
      (streams_modify t.id g st.streams).map Stream.id = st.streams.map Stream.id :=
    fun g hg => streams_modify_map_id hg st.streams
  rcases hen : t.enabled with _ | _
  · rcases hl : List.lookup t.id st.processes with _ | p
    · simp only [reconcile_step, hen, hl]
      rfl
    · simp only [reconcile_step, hen, hl, stop_stream_pass]
      exact hmm _ (fun u hu => hu)
  · rcases hl : List.lookup t.id st.processes with _ | p
    · rcases hsp : spawn t.id with msg | p2
      · simp only [reconcile_step, hen, hl, start_stream, hsp, streams_update]
        exact hmm _ (fun u _ => rfl)
      · simp only [reconcile_step, hen, hl, start_stream, hsp, streams_update]
        exact hmm _ (fun u _ => rfl)
    · rcases hrc : p.returncode.isSome with _ | _
      · simp only [reconcile_step, hen, hl, hrc]
        rfl
      · simp only [reconcile_step, hen, hl, hrc, handle_failure, streams_update]
        exact hmm _ (fun u _ => rfl)

/-- A whole reconcile pass preserves the stream-id list. -/
theorem reconcile_fold_map_id (spawn : Nat → Except String CaptureProcess) :
    ∀ (l : List Stream) (st : SupState),
      ((List.foldl (reconcile_step spawn) st l).streams).map Stream.id
        = st.streams.map Stream.id := by
  intro l
  induction l with
  | nil => exact fun st => rfl
  | cons t l ih =>
    intro st
    simp only [List.foldl_cons]
    rw [ih, reconcile_step_map_id]

/-- An enabled, untracked station with a successful launch is tracked after
the pass. -/
theorem reconcile_spawns (spawn : Nat → Except String CaptureProcess) (st : SupState)
    (s : Stream) (q : CaptureProcess)
    (hnd : (st.streams.map Stream.id).Nodup) (hs : s ∈ st.streams) (hen : s.enabled = true)
    (hnone : List.lookup s.id st.processes = none) (hq : spawn s.id = Except.ok q) :
    List.lookup s.id (reconcile_streams spawn st).processes = some q := by
  obtain ⟨l1, l2, hsplit⟩ := List.append_of_mem hs
  have hmap : (l1.map Stream.id ++ s.id :: l2.map Stream.id).Nodup := by
    have := hnd
    rw [hsplit] at this
    simpa using this
  have hne1 : ∀ t ∈ l1, t.id ≠ s.id := by
    intro t ht he
    rcases List.nodup_append.mp hmap with ⟨_, _, hdisj⟩
    exact hdisj (he ▸ List.mem_map_of_mem Stream.id ht) (by simp)
  have hne2 : ∀ t ∈ l2, t.id ≠ s.id := by
    intro t ht he
    rcases List.nodup_append.mp hmap with ⟨_, hcons, _⟩
    exact (List.nodup_cons.mp hcons).1 (he ▸ List.mem_map_of_mem Stream.id ht)
  have hunf : reconcile_streams spawn st
      = List.foldl (reconcile_step spawn) (reconcile_step spawn
          (List.foldl (reconcile_step spawn) st l1) s) l2 := by
    rw [reconcile_streams, hsplit, List.foldl_append, List.foldl_cons]
  have hA := reconcile_fold_frame spawn l1 st hne1
  have hlook : List.lookup s.id (List.foldl (reconcile_step spawn) st l1).processes = none :=
    hA.1.trans hnone
  have hstep : List.lookup s.id
      (reconcile_step spawn (List.foldl (reconcile_step spawn) st l1) s).processes = some q := by
    simp [reconcile_step, hen, hlook, start_stream, hq, lookup_proc_insert_self]
  rw [hunf]
  exact (reconcile_fold_frame spawn l2 _ hne2).1.trans hstep

/-! ## Claims C2, C3, C4 -/

/-- C2 counterexample: `stop` does not apply the graceful-then-forced policy.
A process that exits only 10 seconds after terminate is waited on for the
full 10 seconds by `stop`, whereas the `stop_stream` policy the claim names
would force-kill it at the 5-second grace bound. -/
theorem claim2_stop_policy_counterexample :
    shutdown_stop_action ⟨none, some 10⟩ = .exitedAfter 10 ∧
    stop_stream_action ⟨none, some 10⟩ = .killedAfter 5 ∧
    (stop_manager ⟨true, [(1, ⟨none, some 10⟩)]⟩).2
      ≠ [(1, stop_stream_action ⟨none, some 10⟩)] := by
  refine ⟨rfl, by decide, by decide⟩

/-- C2 as amended: `stop` first clears the running flag (halting the
reconciliation loop), then for every tracked process with exit code unset
sends terminate and waits without bound for it to exit — never force-killing
— and finally clears all tracking.  The stop of each process is a plain
terminate-and-wait; a process that never exits after terminate makes the
wait hang. -/
theorem claim2_shutdown_terminates_all (st : ManagerState) :
    (stop_manager st).1.running = false ∧
    (stop_manager st).1.processes = [] ∧
    (stop_manager st).2 = st.processes.map (fun q => (q.1, shutdown_stop_action q.2)) ∧
    (∀ a ∈ (stop_manager st).2, ∀ t : Rat, a.2 ≠ StopAction.killedAfter t) := by
  refine ⟨rfl, rfl, rfl, ?_⟩
  intro a ha t
  simp only [stop_manager, List.mem_map] at ha
  obtain ⟨qq, hq, rfl⟩ := ha
  rcases hrc : qq.2.returncode.isSome with _ | _
  · rcases he : qq.2.term_exit_time with _ | u
    · simp [shutdown_stop_action, hrc, he]
    · simp [shutdown_stop_action, hrc, he]
  · simp [shutdown_stop_action, hrc]

/-- C2 witness: stopping a manager tracking one live process that exits 3
seconds after terminate waits those 3 seconds and never force-kills. -/
theorem claim2_shutdown_terminates_all_witness :
    ((1, StopAction.exitedAfter 3) ∈ (stop_manager ⟨true, [(1, ⟨none, some 3⟩)]⟩).2) ∧
    StopAction.exitedAfter 3 ≠ StopAction.killedAfter 5 :=
  ⟨by decide,
   (claim2_shutdown_terminates_all ⟨true, [(1, ⟨none, some 3⟩)]⟩).2.2.2
     (1, .exitedAfter 3) (by decide) 5⟩

/-- C3: in a pass that finds a tracked process with its exit code set for an
enabled station, the pass untracks it, records status `error` with the fixed
message, appends the error event, and does not respawn it within that pass;
with a successful launch the station is respawned by the next pass. -/
theorem claim3_dead_process_pass (spawn : Nat → Except String CaptureProcess)
    (st : SupState) (s : Stream) (p q : CaptureProcess)
    (hnd : (st.streams.map Stream.id).Nodup)
    (hmem : s ∈ st.streams) (hen : s.enabled = true)
    (hp : List.lookup s.id st.processes = some p)
    (hdead : p.returncode.isSome = true)
    (hq : spawn s.id = Except.ok q) :
    List.lookup s.id (reconcile_streams spawn st).processes = none ∧
    find_stream s.id (reconcile_streams spawn st).streams
      = some { s with current_status := "error", last_error := some "Process exited unexpectedly" } ∧
    (⟨s.id, "error", "Stream process died"⟩ : EventRec) ∈ (reconcile_streams spawn st).events ∧
    List.lookup s.id (reconcile_streams spawn (reconcile_streams spawn st)).processes
      = some q := by
  obtain ⟨l1, l2, hsplit⟩ := List.append_of_mem hmem
  have hmap : (l1.map Stream.id ++ s.id :: l2.map Stream.id).Nodup := by
    have h0 := hnd
    rw [hsplit] at h0
    simpa using h0
  have hne1 : ∀ t ∈ l1, t.id ≠ s.id := by
    intro t ht he
    rcases List.nodup_append.mp hmap with ⟨_, _, hdisj⟩
    exact hdisj (he ▸ List.mem_map_of_mem Stream.id ht) (by simp)
  have hne2 : ∀ t ∈ l2, t.id ≠ s.id := by
    intro t ht he
    rcases List.nodup_append.mp hmap with ⟨_, hcons, _⟩
    exact (List.nodup_cons.mp hcons).1 (he ▸ List.mem_map_of_mem Stream.id ht)
  have hunf : reconcile_streams spawn st
      = List.foldl (reconcile_step spawn) (reconcile_step spawn
          (List.foldl (reconcile_step spawn) st l1) s) l2 := by
    rw [reconcile_streams, hsplit, List.foldl_append, List.foldl_cons]
  have hA := reconcile_fold_frame spawn l1 st hne1
  have hlookA : List.lookup s.id (List.foldl (reconcile_step spawn) st l1).processes
      = some p := hA.1.trans hp
  have hfindA : find_stream s.id (List.foldl (reconcile_step spawn) st l1).streams
      = some s := hA.2.1.trans (find_stream_eq_of_mem hnd hmem)
  have hstep : reconcile_step spawn (List.foldl (reconcile_step spawn) st l1) s
      = handle_failure (List.foldl (reconcile_step spawn) st l1) s := by
    simp [reconcile_step, hen, hlookA, hdead]
  have hlookB : List.lookup s.id
      (handle_failure (List.foldl (reconcile_step spawn) st l1) s).processes = none := by
    simp only [handle_failure]
    exact lookup_proc_erase_self s.id _
  have hfindB : find_stream s.id
      (handle_failure (List.foldl (reconcile_step spawn) st l1) s).streams
      = some { s with current_status := "error", last_error := some "Process exited unexpectedly" } := by
    simp only [handle_failure, streams_update]
    rw [@find_stream_modify_self s.id
      (fun _ => ({ s with current_status := "error", last_error := some "Process exited unexpectedly" } : Stream))
      (fun u _ => rfl) ((List.foldl (reconcile_step spawn) st l1).streams), hfindA]
    rfl
  have hevB : (⟨s.id, "error", "Stream process died"⟩ : EventRec)
      ∈ (handle_failure (List.foldl (reconcile_step spawn) st l1) s).events := by
    simp [handle_failure]
  have hB := reconcile_fold_frame spawn l2
    (handle_failure (List.foldl (reconcile_step spawn) st l1) s) hne2
  have part1 : List.lookup s.id (reconcile_streams spawn st).processes = none := by
    rw [hunf, hstep]
    exact hB.1.trans hlookB
  have part2 : find_stream s.id (reconcile_streams spawn st).streams
      = some { s with current_status := "error", last_error := some "Process exited unexpectedly" } := by
    rw [hunf, hstep]
    exact hB.2.1.trans hfindB
  have part3 : (⟨s.id, "error", "Stream process died"⟩ : EventRec)
      ∈ (reconcile_streams spawn st).events := by
    rw [hunf, hstep]
    exact hB.2.2 _ hevB
  refine ⟨part1, part2, part3, ?_⟩
  have hnd1 : ((reconcile_streams spawn st).streams.map Stream.id).Nodup := by
    rw [reconcile_streams, reconcile_fold_map_id]
    exact hnd
  have hmem1 : ({ s with current_status := "error", last_error := some "Process exited unexpectedly" } : Stream)
      ∈ (reconcile_streams spawn st).streams :=
    List.mem_of_find?_eq_some (by simpa [find_stream] using part2)
  exact reconcile_spawns spawn (reconcile_streams spawn st)
    { s with current_status := "error", last_error := some "Process exited unexpectedly" }
    q hnd1 hmem1 hen part1 hq

/-- C3 witness: one enabled station whose tracked process has exit code 1 is
untracked and marked in the pass, and respawned by the following pass. -/
theorem claim3_dead_process_pass_witness :
    List.lookup 1 ((⟨[(1, ⟨some 1, none⟩)], [⟨1, true, "running", none⟩], []⟩ :
        SupState)).processes = some ⟨some 1, none⟩ ∧
    (List.lookup 1 (reconcile_streams (fun _ => Except.ok ⟨none, none⟩)
        ⟨[(1, ⟨some 1, none⟩)], [⟨1, true, "running", none⟩], []⟩).processes = none ∧
     find_stream 1 (reconcile_streams (fun _ => Except.ok ⟨none, none⟩)
        ⟨[(1, ⟨some 1, none⟩)], [⟨1, true, "running", none⟩], []⟩).streams
       = some ⟨1, true, "error", some "Process exited unexpectedly"⟩ ∧
     (⟨1, "error", "Stream process died"⟩ : EventRec) ∈
       (reconcile_streams (fun _ => Except.ok ⟨none, none⟩)
        ⟨[(1, ⟨some 1, none⟩)], [⟨1, true, "running", none⟩], []⟩).events ∧
     List.lookup 1 (reconcile_streams (fun _ => Except.ok ⟨none, none⟩)
        (reconcile_streams (fun _ => Except.ok ⟨none, none⟩)
          ⟨[(1, ⟨some 1, none⟩)], [⟨1, true, "running", none⟩], []⟩)).processes
       = some ⟨none, none⟩) :=
  ⟨by decide,
   claim3_dead_process_pass (fun _ => Except.ok ⟨none, none⟩)
     ⟨[(1, ⟨some 1, none⟩)], [⟨1, true, "running", none⟩], []⟩
     ⟨1, true, "running", none⟩ ⟨some 1, none⟩ ⟨none, none⟩
     (by decide) (by decide) rfl rfl rfl rfl⟩

/-- C4 (code defect): a tracked process whose station was deleted from the
stream table is never stopped: a reconcile pass over an empty stream table
is the identity, leaving station 7's process tracked.  (The source computes
`active_stream_ids` for exactly this cleanup but never reads it.) -/
theorem claim4_deleted_station_still_tracked :
    (⟨[(7, ⟨none, none⟩)], [], []⟩ : SupState).streams = [] ∧
    reconcile_streams (fun _ => Except.error "unused")
        ⟨[(7, ⟨none, none⟩)], [], []⟩
      = ⟨[(7, ⟨none, none⟩)], [], []⟩ ∧
    List.lookup 7 (reconcile_streams (fun _ => Except.error "unused")
        ⟨[(7, ⟨none, none⟩)], [], []⟩).processes = some ⟨none, none⟩ :=
  ⟨rfl, rfl, rfl⟩

/-! ## Lemmas about the Watcher scan -/

/-- One per-file step either leaves the table unchanged or appends exactly
one row, and it appends only when the name carries an audio extension, the
path is not yet registered, the file is outside the 10-second stability
window, and the timestamp parse succeeds. -/
theorem scan_file_cases (now : Rat) (gd : String → Rat) (pt : String → Option Rat)
    (sid : Nat) (db : List WatchRecording) (f : FileEntry) :
    scan_file now gd pt sid db f = db ∨
    (∃ ts, pt f.name = some ts ∧
      scan_file now gd pt sid db f
        = db ++ [⟨sid, full_path f, ts, f.size, gd (full_path f), "completed"⟩] ∧
      full_path f ∉ db_paths db ∧
      ¬(now - f.mtime < 10) ∧
      (str_ends_with f.name ".wav" || str_ends_with f.name ".mp3") = true) := by
  rcases hext : (str_ends_with f.name ".wav" || str_ends_with f.name ".mp3") with _ | _
  · exact Or.inl (by simp [scan_file, hext])
  · rcases hany : db.any (fun row => row.path == full_path f) with _ | _
    · by_cases hm : now - f.mtime < 10
      · exact Or.inl (by simp [scan_file, hext, hany, hm])
      · rcases hpt : pt f.name with _ | ts
        · exact Or.inl (by simp [scan_file, hext, hany, hm, hpt])
        · refine Or.inr ⟨ts, rfl, by simp [scan_file, hext, hany, hm, hpt], ?_, hm, rfl⟩
          intro hmem
          simp only [db_paths, List.mem_map] at hmem
          obtain ⟨r, hr, hpath⟩ := hmem
          have h2 := List.any_eq_false.mp hany r hr
          simp [hpath] at h2
    · exact Or.inl (by simp [scan_file, hext, hany])

/-- A scan never makes the registered path list repeat itself. -/
theorem scan_files_nodup (now : Rat) (gd : String → Rat) (pt : String → Option Rat)
    (sid : Nat) :
    ∀ (files : List FileEntry) (db : List WatchRecording),
      (db_paths db).Nodup → (db_paths (scan_files now gd pt sid db files)).Nodup := by
  intro files
  induction files with
  | nil => exact fun db h => h
  | cons f files ih =>
    intro db hnd
    have hstep : (db_paths (scan_file now gd pt sid db f)).Nodup := by
      rcases scan_file_cases now gd pt sid db f with h | ⟨ts, _, heq, hnot, _, _⟩
      · rw [h]; exact hnd
      · rw [heq]
        simp only [db_paths, List.map_append, List.map_cons, List.map_nil]
        rw [List.nodup_append]
        exact ⟨hnd, List.nodup_singleton _, by
          intro a ha hb
          simp only [List.mem_singleton] at hb
          exact hnot (hb ▸ ha)⟩
    exact ih (scan_file now gd pt sid db f) hstep

/-- A path registered by a scan was either registered before the scan, or
belongs to a scanned file that carried an audio extension, lay outside the
stability window, and parsed. -/
theorem scan_files_mem_db_paths (now : Rat) (gd : String → Rat) (pt : String → Option Rat)
    (sid : Nat) :
    ∀ (files : List FileEntry) (db : List WatchRecording) (p : String),
      p ∈ db_paths (scan_files now gd pt sid db files) →
      p ∈ db_paths db ∨
      ∃ f ∈ files, full_path f = p ∧
        (str_ends_with f.name ".wav" || str_ends_with f.name ".mp3") = true ∧
        ¬(now - f.mtime < 10) ∧ (∃ ts, pt f.name = some ts) := by
  intro files
  induction files with
  | nil => exact fun db p hp => Or.inl hp
  | cons f files ih =>
    intro db p hp
    rcases ih (scan_file now gd pt sid db f) p hp with h1 | ⟨g, hg, hrest⟩
    · rcases scan_file_cases now gd pt sid db f with h | ⟨ts, hts, heq, _, hm, hext⟩
      · exact Or.inl (h ▸ h1)
      · rw [heq] at h1
        simp only [db_paths, List.map_append, List.map_cons, List.map_nil,
          List.mem_append, List.mem_singleton] at h1
        rcases h1 with h1 | h1
        · exact Or.inl h1
        · exact Or.inr ⟨f, by simp, h1.symm, hext, hm, ts, hts⟩
    · exact Or.inr ⟨g, by simp [hg], hrest⟩

/-! ## Claims C5, C10 -/

/-- C5: across repeated scans the watcher never registers the same path
twice (the table's path list stays duplicate-free, the existence check being
an exact path match before insertion), and a path all of whose directory
entries were modified within the 10-second stability window before the scan
is never newly registered. -/
theorem claim5_watcher_registration_invariants (now : Rat) (gd : String → Rat)
    (pt : String → Option Rat) (sid : Nat) (db : List WatchRecording)
    (files : List FileEntry) (hnd : (db_paths db).Nodup) :
    (db_paths (scan_files now gd pt sid db files)).Nodup ∧
    (∀ p : String, (∀ f ∈ files, full_path f = p → now - f.mtime < 10) →
      p ∈ db_paths (scan_files now gd pt sid db files) → p ∈ db_paths db) := by
  refine ⟨scan_files_nodup now gd pt sid files db hnd, ?_⟩
  intro p hfresh hp
  rcases scan_files_mem_db_paths now gd pt sid files db p hp with h | ⟨f, hf, hpath, _, hm, _⟩
  · exact h
  · exact absurd (hfresh f hf hpath) hm

/-- C5 witness: a scan over an already-registered file and a file modified 5
seconds before the scan registers nothing new. -/
theorem claim5_watcher_registration_invariants_witness :
    ((db_paths [⟨1, "d/a.wav", 0, 5, 1, "completed"⟩]).Nodup) ∧
    ((db_paths (scan_files 100 (fun _ => 1) (fun _ => some 0) 1
        [⟨1, "d/a.wav", 0, 5, 1, "completed"⟩]
        [⟨"a.wav", "d", 0, 5⟩, ⟨"b.wav", "d", 95, 5⟩])).Nodup ∧
      ((∀ f ∈ [(⟨"a.wav", "d", 0, 5⟩ : FileEntry), ⟨"b.wav", "d", 95, 5⟩],
          full_path f = "d/b.wav" → (100 : Rat) - f.mtime < 10) →
        "d/b.wav" ∈ db_paths (scan_files 100 (fun _ => 1) (fun _ => some 0) 1
          [⟨1, "d/a.wav", 0, 5, 1, "completed"⟩]
          [⟨"a.wav", "d", 0, 5⟩, ⟨"b.wav", "d", 95, 5⟩]) →
        "d/b.wav" ∈ db_paths [(⟨1, "d/a.wav", 0, 5, 1, "completed"⟩ : WatchRecording)])) :=
  ⟨by decide,
   (claim5_watcher_registration_invariants 100 (fun _ => 1) (fun _ => some 0) 1
      [⟨1, "d/a.wav", 0, 5, 1, "completed"⟩]
      [⟨"a.wav", "d", 0, 5⟩, ⟨"b.wav", "d", 95, 5⟩] (by decide)).imp id
     (fun h => h "d/b.wav")⟩

/-- C10: a scanned file whose name does not end in `.wav` or `.mp3` is never
registered, for every path all of whose directory entries fail the extension
check; yet the command builder accepts an arbitrary container format (here
`ogg`), emitting an output template whose extension is that format, so such
segments are produced but never become Recordings. -/
theorem claim10_extension_filter (now : Rat) (gd : String → Rat)
    (pt : String → Option Rat) (sid : Nat) (db : List WatchRecording)
    (files : List FileEntry) (p : String)
    (hbad : ∀ f ∈ files, full_path f = p →
      (str_ends_with f.name ".wav" || str_ends_with f.name ".mp3") = false)
    (hp : p ∈ db_paths (scan_files now gd pt sid db files)) :
    p ∈ db_paths db ∧
    build_command ⟨"http://u", "radio", some "ogg", none, none, none, none, none, []⟩
      = Except.ok ["ffmpeg", "-nostdin", "-y", "-loglevel", "info", "-i", "http://u",
          "-map", "0:a", "-segment_format", "ogg", "-c:a", "copy", "-f", "segment",
          "-segment_time", "3600", "-strftime", "1", "-reset_timestamps", "1",
          "/data/recordings/radio/%Y/%m/%d/chunk_%Y%m%d%H%M%S.ogg"] ∧
    str_ends_with "/data/recordings/radio/%Y/%m/%d/chunk_%Y%m%d%H%M%S.ogg" ".ogg" = true := by
  refine ⟨?_, rfl, by decide⟩
  rcases scan_files_mem_db_paths now gd pt sid files db p hp with h | ⟨f, hf, hpath, hext, _, _⟩
  · exact h
  · rw [hbad f hf hpath] at hext
    cases hext

/-- C10 witness: a scan over an `.ogg` segment file (as produced by an `ogg`
station) registers nothing. -/
theorem claim10_extension_filter_witness :
    (∀ f ∈ [(⟨"chunk_20250101120000.ogg", "d", 0, 5⟩ : FileEntry)],
      full_path f = "d/chunk_20250101120000.ogg" →
      (str_ends_with f.name ".wav" || str_ends_with f.name ".mp3") = false) ∧
    ("d/chunk_20250101120000.ogg" ∈ db_paths (scan_files 100 (fun _ => 1) (fun _ => some 0) 1
        [⟨1, "d/chunk_20250101120000.ogg", 0, 5, 1, "completed"⟩]
        [⟨"chunk_20250101120000.ogg", "d", 0, 5⟩])) ∧
    "d/chunk_20250101120000.ogg"
      ∈ db_paths [(⟨1, "d/chunk_20250101120000.ogg", 0, 5, 1, "completed"⟩ : WatchRecording)] :=
  ⟨by decide, by decide,
   (claim10_extension_filter 100 (fun _ => 1) (fun _ => some 0) 1
      [⟨1, "d/chunk_20250101120000.ogg", 0, 5, 1, "completed"⟩]
      [⟨"chunk_20250101120000.ogg", "d", 0, 5⟩] "d/chunk_20250101120000.ogg"
      (by decide) (by decide)).1⟩

/-! ## Claim C6 -/

/-- C6: with no codec override the codec resolves to `pcm_s16le` for the
`wav` default container and to `copy` otherwise; an explicit override always
wins; and the `-ac`/`-ar` arguments appear in the built list exactly when
the resolved codec is not `copy`.  The inequality hypotheses rule out a
configured value being the literal string `-ac`/`-ar` itself. -/
theorem claim6_codec_resolution (c : BuilderConfig) (args : List String)
    (hok : build_command c = Except.ok args)
    (hurl : c.url ≠ "-ac" ∧ c.url ≠ "-ar")
    (hfmt : resolved_format c ≠ "-ac" ∧ resolved_format c ≠ "-ar")
    (hbit : ∀ b, c.bitrate = some b → b ≠ "-ac" ∧ b ≠ "-ar")
    (hseg : toString (c.segment_time.getD 3600) ≠ "-ac"
      ∧ toString (c.segment_time.getD 3600) ≠ "-ar")
    (hflags : "-ac" ∉ c.flags ∧ "-ar" ∉ c.flags)
    (hout : output_pattern c ≠ "-ac" ∧ output_pattern c ≠ "-ar") :
    (c.codec = none → resolved_format c = "wav" → resolved_codec c = "pcm_s16le") ∧
    (c.codec = none → resolved_format c ≠ "wav" → resolved_codec c = "copy") ∧
    (∀ x, c.codec = some x → resolved_codec c = x) ∧
    ("-ac" ∈ args ↔ resolved_codec c ≠ "copy") ∧
    ("-ar" ∈ args ↔ resolved_codec c ≠ "copy") := by
  have hv : ¬(c.url = "" ∨ c.name = "") := by
    intro hv
    simp [build_command, hv] at hok
  simp only [build_command, if_neg hv, Except.ok.injEq] at hok
  subst hok
  refine ⟨fun h1 h2 => by simp [resolved_codec, h1, default_codec, h2],
    fun h1 h2 => by simp [resolved_codec, h1, default_codec, h2],
    fun x h1 => by simp [resolved_codec, h1], ?_, ?_⟩
  · by_cases hcopy : resolved_codec c = "copy"
    · simp only [hcopy, ne_eq, not_true_eq_false, iff_false]
      rcases hb : c.bitrate with _ | b
      · simp [bitrate_args, hb, transcode_args, hcopy, Ne.symm hurl.1, Ne.symm hfmt.1,
          Ne.symm hseg.1, hflags.1, Ne.symm hout.1]
      · by_cases hbe : b = ""
        · simp [bitrate_args, hb, hbe, transcode_args, hcopy, Ne.symm hurl.1, Ne.symm hfmt.1,
            Ne.symm hseg.1, hflags.1, Ne.symm hout.1]
        · simp [bitrate_args, hb, hbe, transcode_args, hcopy, Ne.symm hurl.1, Ne.symm hfmt.1,
            Ne.symm hseg.1, hflags.1, Ne.symm hout.1, Ne.symm (hbit b hb).1]
    · simp only [hcopy, ne_eq, not_false_eq_true, iff_true]
      simp [transcode_args, hcopy]
  · by_cases hcopy : resolved_codec c = "copy"
    · simp only [hcopy, ne_eq, not_true_eq_false, iff_false]
      rcases hb : c.bitrate with _ | b
      · simp [bitrate_args, hb, transcode_args, hcopy, Ne.symm hurl.2, Ne.symm hfmt.2,
          Ne.symm hseg.2, hflags.2, Ne.symm hout.2]
      · by_cases hbe : b = ""
        · simp [bitrate_args, hb, hbe, transcode_args, hcopy, Ne.symm hurl.2, Ne.symm hfmt.2,
            Ne.symm hseg.2, hflags.2, Ne.symm hout.2]
        · simp [bitrate_args, hb, hbe, transcode_args, hcopy, Ne.symm hurl.2, Ne.symm hfmt.2,
            Ne.symm hseg.2, hflags.2, Ne.symm hout.2, Ne.symm (hbit b hb).2]
    · simp only [hcopy, ne_eq, not_false_eq_true, iff_true]
      simp [transcode_args, hcopy]

/-- C6 witness: an all-defaults station (container `wav`, no codec override)
resolves to `pcm_s16le` and its command carries `-ac` and `-ar`. -/
theorem claim6_codec_resolution_witness :
    build_command ⟨"http://u", "st", none, none, none, none, none, none, []⟩
      = Except.ok ["ffmpeg", "-nostdin", "-y", "-loglevel", "info", "-i", "http://u",
          "-map", "0:a", "-segment_format", "wav", "-c:a", "pcm_s16le", "-ac", "1",
          "-ar", "16000", "-f", "segment", "-segment_time", "3600", "-strftime", "1",
          "-reset_timestamps", "1", "/data/recordings/st/%Y/%m/%d/chunk_%Y%m%d%H%M%S.wav"] ∧
    ((Option.none = (none : Option String) →
      resolved_format ⟨"http://u", "st", none, none, none, none, none, none, []⟩ = "wav" →
      resolved_codec ⟨"http://u", "st", none, none, none, none, none, none, []⟩ = "pcm_s16le") ∧
     (Option.none = (none : Option String) →
      resolved_format ⟨"http://u", "st", none, none, none, none, none, none, []⟩ ≠ "wav" →
      resolved_codec ⟨"http://u", "st", none, none, none, none, none, none, []⟩ = "copy") ∧
     (∀ x, Option.none = some x →
      resolved_codec ⟨"http://u", "st", none, none, none, none, none, none, []⟩ = x) ∧
     ("-ac" ∈ ["ffmpeg", "-nostdin", "-y", "-loglevel", "info", "-i", "http://u",
          "-map", "0:a", "-segment_format", "wav", "-c:a", "pcm_s16le", "-ac", "1",
          "-ar", "16000", "-f", "segment", "-segment_time", "3600", "-strftime", "1",
          "-reset_timestamps", "1", "/data/recordings/st/%Y/%m/%d/chunk_%Y%m%d%H%M%S.wav"]
        ↔ resolved_codec ⟨"http://u", "st", none, none, none, none, none, none, []⟩ ≠ "copy") ∧
     ("-ar" ∈ ["ffmpeg", "-nostdin", "-y", "-loglevel", "info", "-i", "http://u",
          "-map", "0:a", "-segment_format", "wav", "-c:a", "pcm_s16le", "-ac", "1",
          "-ar", "16000", "-f", "segment", "-segment_time", "3600", "-strftime", "1",
          "-reset_timestamps", "1", "/data/recordings/st/%Y/%m/%d/chunk_%Y%m%d%H%M%S.wav"]
        ↔ resolved_codec ⟨"http://u", "st", none, none, none, none, none, none, []⟩ ≠ "copy")) :=
  ⟨rfl,
   claim6_codec_resolution ⟨"http://u", "st", none, none, none, none, none, none, []⟩
     ["ffmpeg", "-nostdin", "-y", "-loglevel", "info", "-i", "http://u",
      "-map", "0:a", "-segment_format", "wav", "-c:a", "pcm_s16le", "-ac", "1",
      "-ar", "16000", "-f", "segment", "-segment_time", "3600", "-strftime", "1",
      "-reset_timestamps", "1", "/data/recordings/st/%Y/%m/%d/chunk_%Y%m%d%H%M%S.wav"]
     rfl ⟨by decide, by decide⟩ ⟨by decide, by decide⟩ (fun b h => nomatch h)
     ⟨by decide, by decide⟩ ⟨by decide, by decide⟩ ⟨by decide, by decide⟩⟩

end RadioCapture
